import Mathlib

/-!
Shallow embedding of the append/read core of the nibble log-structured
store (src/src/nibble/thelog.rs and src/src/nibble/common.rs), together
with spec-modelled versions of the external segment collaborators
(block-spanning copy, segment capacity query and write) that the
repository references but whose sources are not under src/.

Machine integers are modelled as Nat with explicit reductions modulo
powers of two where the source casts; byte memory is modelled as lists
of Nat.  Virtual addresses are modelled as segment-relative logical
offsets, so that the in-block offset of an address va is va mod
BLOCK_SIZE, exactly what the source computes with va AND BLOCK_OFF_MASK
for the power-of-two BLOCK_SIZE.  Rust assertion failures and
out-of-bounds slice accesses are modelled as distinguished outcomes.
-/

deriving instance DecidableEq for Except

namespace Nibble

abbrev Byte := Nat

/-- Error codes, from src/src/nibble/common.rs. -/
inductive ErrorCode where
  | SegmentFull
  | SegmentClosed
  | OutOfMemory
  | KeyNotExist
  | EmptyObject
  | ObjectTooBig
deriving DecidableEq, Repr

/-- Modelled from the spec: the Block-Spanning Byte Transfer
(segment::copy_out, not under src/).  Walks the ordered block list,
copying min(remaining-in-block, remaining-to-copy) bytes per block,
starting at logical offset off relative to the first block. -/
def copy_out : List (List Byte) → Nat → Nat → List Byte
  | [], _, _ => []
  | b :: bs, off, len =>
    if b.length ≤ off then
      copy_out bs (off - b.length) len
    else
      (b.drop off).take (min (b.length - off) len) ++
        copy_out bs 0 (len - min (b.length - off) len)

/-- The block-spanning transfer reads exactly the logical byte range
it is asked for: it agrees with taking a slice of the concatenation of
the block list. -/
theorem copy_out_eq (bs : List (List Byte)) (off len : Nat) :
    copy_out bs off len = (bs.flatten.drop off).take len := by
  induction bs generalizing off len with
  | nil => simp [copy_out]
  | cons b bs ih =>
    by_cases h : b.length ≤ off
    · rw [copy_out, if_pos h, ih]
      rw [List.flatten_cons, List.drop_append_eq_append_drop]
      have : b.drop off = [] := List.drop_eq_nil_of_le h
      simp [this]
    · rw [copy_out, if_neg h, ih]
      rw [List.flatten_cons, List.drop_append_eq_append_drop]
      have hoff : off - b.length = 0 := by omega
      rw [hoff, List.take_append_eq_append_take]
      have hlen : (b.drop off).length = b.length - off := by
        simp [List.length_drop]
      rcases le_total len (b.length - off) with hle | hle
      · have h1 : min (b.length - off) len = len := by omega
        have h2 : len - (b.length - off) = 0 := by omega
        rw [h1, hlen, h2]
        simp
      · have h1 : min (b.length - off) len = b.length - off := by omega
        rw [h1, hlen]
        have h2 : (b.drop off).take (b.length - off) = b.drop off := by
          apply List.take_of_length_le
          omega
        have h3 : (b.drop off).take len = b.drop off := by
          apply List.take_of_length_le
          omega
        rw [h2, h3]

/-- Little-endian bytes of a 32-bit value, the flat representation of
one u32 field of the repr(C) EntryHeader. -/
def u32Bytes (x : Nat) : List Byte :=
  [x % 256, x / 256 % 256, x / 65536 % 256, x / 16777216 % 256]

/-- Read a 32-bit little-endian value from the first four bytes. -/
def u32OfBytes : List Byte → Nat
  | b0 :: b1 :: b2 :: b3 :: _ => b0 + 256 * b1 + 65536 * b2 + 16777216 * b3
  | _ => 0

/-- Entry header from src/src/nibble/thelog.rs: two u32 fields, key
length then data length.  Fields are Nats kept below 2^32 by the
constructions that build headers. -/
structure EntryHeader where
  keylen : Nat
  datalen : Nat
deriving DecidableEq, Repr

/-- Byte width of the flat repr(C) EntryHeader: two u32 fields. -/
def entryHeaderSize : Nat := 8

/-- Flat byte representation of a header as written into the log. -/
def EntryHeader.toBytes (h : EntryHeader) : List Byte :=
  u32Bytes h.keylen ++ u32Bytes h.datalen

/-- Decode a header from its flat byte representation. -/
def EntryHeader.ofBytes (l : List Byte) : EntryHeader :=
  ⟨u32OfBytes l, u32OfBytes (l.drop 4)⟩

/-- Modelled from the spec: the external Object Descriptor — caller
supplied key bytes, value bytes and a value-pointer nullness flag.
Its keylen is a usize (64-bit), its valuelen a u32. -/
structure ObjDesc where
  keyBytes : List Byte
  valueBytes : List Byte
  valueNull : Bool
deriving DecidableEq, Repr

def ObjDesc.keylen (d : ObjDesc) : Nat := d.keyBytes.length

def ObjDesc.valuelen (d : ObjDesc) : Nat := d.valueBytes.length

/-- Framed length of the record a descriptor would produce: header
size plus key length plus value length. -/
def ObjDesc.len_with_header (d : ObjDesc) : Nat :=
  entryHeaderSize + d.keylen + d.valuelen

/-- Largest usize value (the store targets 64-bit platforms). -/
def usizeMax : Nat := 2 ^ 64 - 1

/-- EntryHeader::new from thelog.rs: the descriptor's usize key length
is cast to u32 (reduction modulo 2^32) with no range check; the data
length is already a u32. -/
def EntryHeader.new (d : ObjDesc) : EntryHeader :=
  ⟨d.keylen % 2 ^ 32, d.valuelen⟩

/-- The guard asserted by EntryHeader::new on the key length:
desc.keylen() at most usize::MAX. -/
def EntryHeader.new_keylen_check (d : ObjDesc) : Prop :=
  d.keylen ≤ usizeMax

/-- EntryHeader::object_length: u32 addition of the two fields
(wrapping, as released code would). -/
def EntryHeader.object_length (h : EntryHeader) : Nat :=
  (h.datalen + h.keylen) % 2 ^ 32

/-- EntryHeader::len_with_header: object length widened to usize plus
the header byte width. -/
def EntryHeader.len_with_header (h : EntryHeader) : Nat :=
  h.object_length + entryHeaderSize

/-- Modelled from the spec: a segment (segment.rs is not under src/) —
an ordered list of fixed-size blocks backing one append-only container
of capacity SEGMENT_SIZE, a logical write cursor, and a closed flag. -/
structure Segment where
  blocks : List (List Byte)
  pos : Nat
  closed : Bool
deriving DecidableEq, Repr

/-- Modelled from the spec: Segment::can_hold, the non-mutating
capacity query — the framed record fits in the remaining space of the
segment's fixed capacity. -/
def Segment.can_hold (S : Nat) (seg : Segment) (d : ObjDesc) : Bool :=
  seg.pos + d.len_with_header ≤ S

/-- Write a byte list into a block list at a logical offset, keeping
the block structure (the write analogue of the block-spanning
transfer; part of the spec-modelled external segment). -/
def setBlocks : List (List Byte) → Nat → List Byte → List (List Byte)
  | [], _, _ => []
  | b :: bs, off, p =>
    if b.length ≤ off then
      b :: setBlocks bs (off - b.length) p
    else
      (b.take off ++ p.take (min (b.length - off) p.length) ++
        b.drop (off + min (b.length - off) p.length)) ::
        setBlocks bs 0 (p.drop (min (b.length - off) p.length))

/-- Modelled from the spec: Segment::append — the mutating write under
the segment's exclusive access.  Fails on a closed segment or when the
capacity query says the record does not fit; otherwise writes the
framed bytes (header, key, value) at the write cursor and returns the
record's virtual address.  Virtual addresses are modelled as the
segment-relative logical offset of the record. -/
def Segment.append (S : Nat) (seg : Segment) (d : ObjDesc) :
    Except ErrorCode (Nat × Segment) :=
  if seg.closed then
    .error .SegmentClosed
  else if seg.can_hold S d then
    let bytes := (EntryHeader.new d).toBytes ++ d.keyBytes ++ d.valueBytes
    .ok (seg.pos, ⟨setBlocks seg.blocks seg.pos bytes, seg.pos + bytes.length, false⟩)
  else
    .error .SegmentFull

/-- Log head state from thelog.rs: at most one current segment. -/
structure LogHead where
  segment : Option Segment
deriving DecidableEq, Repr

/-- Outcome of an append: a returned status (virtual address or error
code), or one of the fatal assertion/unwrap failures of the source. -/
inductive AppendResult where
  | ok (va : Nat)
  | err (c : ErrorCode)
  | panicTooBig
  | panicUnwrap
  | panicAppendFailed
deriving DecidableEq, Repr

/-- LogHead::append from thelog.rs, parametric in the segment append
collaborator.  Asserts the static size bound, decides whether to roll
(no current segment, or the capacity query fails), rolls by closing
and handing off the current segment and installing the allocator's
fresh segment (error OutOfMemory when allocation fails), then performs
the segment write, treating a failure there as a fatal fault. -/
def LogHead.appendWith (S HS : Nat)
    (segAppend : Segment → ObjDesc → Except ErrorCode (Nat × Segment))
    (hs : LogHead) (alloc : Option Segment) (buf : ObjDesc) :
    AppendResult × LogHead :=
  if buf.len_with_header < S - HS then
    let roll : Bool :=
      match hs.segment with
      | none => true
      | some seg => ! seg.can_hold S buf
    if roll then
      match alloc with
      | none => (.err .OutOfMemory, ⟨none⟩)
      | some fresh =>
        match segAppend fresh buf with
        | .error _ => (.panicAppendFailed, ⟨some fresh⟩)
        | .ok (va, seg') => (.ok va, ⟨some seg'⟩)
    else
      match hs.segment with
      | none => (.panicUnwrap, hs)
      | some seg =>
        match segAppend seg buf with
        | .error _ => (.panicAppendFailed, ⟨some seg⟩)
        | .ok (va, seg') => (.ok va, ⟨some seg'⟩)
  else
    (.panicTooBig, hs)

/-- LogHead::append with the spec-modelled segment collaborator. -/
def LogHead.append (S HS : Nat) (hs : LogHead) (alloc : Option Segment)
    (buf : ObjDesc) : AppendResult × LogHead :=
  LogHead.appendWith S HS (Segment.append S) hs alloc buf

/-- The segment on which LogHead::append performs its final write:
the current segment when the roll decision says it can hold the
object, the freshly allocated one otherwise. -/
def LogHead.chosenSeg (S : Nat) (hs : LogHead) (alloc : Option Segment)
    (buf : ObjDesc) : Option Segment :=
  match hs.segment with
  | none => alloc
  | some seg => if seg.can_hold S buf then some seg else alloc

/-- Number of log heads, from thelog.rs. -/
def NUM_LOG_HEADS : Nat := 1

/-- The log from thelog.rs: the head pool and the advisory per-segment
live-byte table (the external SegmentInfoTable, modelled as a map from
segment index to byte count). -/
structure Log where
  heads : List LogHead
  seginfo : Nat → Nat

/-- Log::append from thelog.rs: pick the head indexed by a random draw
reduced modulo the head count, delegate to its append, return any
failure immediately, and on success increment the owning segment's
live-byte counter by the record's framed length.  The random draw, the
allocator's reply and the external segment_of mapping are inputs. -/
def Log.append (S HS : Nat) (lg : Log) (r : Nat) (alloc : Option Segment)
    (segOf : Nat → Nat) (buf : ObjDesc) : AppendResult × Log :=
  let x := r % NUM_LOG_HEADS
  match lg.heads.get? x with
  | none => (.panicUnwrap, lg)
  | some hd =>
    match LogHead.append S HS hd alloc buf with
    | (.ok va, hd') =>
      let idx := segOf va
      let len := buf.len_with_header
      if len < S then
        (.ok va,
          ⟨lg.heads.set x hd',
            fun i => if i = idx then lg.seginfo i + len else lg.seginfo i⟩)
      else
        (.panicTooBig, ⟨lg.heads.set x hd', lg.seginfo⟩)
    | (res, hd') => (res, ⟨lg.heads.set x hd', lg.seginfo⟩)

/-- Lazy record reference from thelog.rs: offset into the first block,
framed length, key and value lengths, and the block sub-slice the
record spans. -/
structure EntryReference where
  offset : Nat
  len : Nat
  keylen : Nat
  datalen : Nat
  blocks : List (List Byte)
deriving DecidableEq, Repr

/-- EntryReference::get_data from thelog.rs: copy the value — the last
datalen bytes of the framed record — out through the block-spanning
transfer. -/
def EntryReference.get_data (er : EntryReference) : List Byte :=
  copy_out er.blocks (er.offset + er.len - er.datalen) er.datalen

/-- Number of blocks the decoder assigns to a framed record: one, plus,
when the record overruns the tail of its first block, the source's
count of further blocks (floor division plus one). -/
def nblksOf (B blk_tail entry_len : Nat) : Nat :=
  if blk_tail < entry_len then 1 + ((entry_len - blk_tail) / B + 1) else 1

/-- Validation and block-span computation shared by both header-read
branches of get_ref (thelog.rs): the debug assertions on the decoded
fields, the block count, the slice bound, and the resulting reference. -/
def get_ref_rest (B S : Nat) (list : List (List Byte)) (idx offset blk_tail : Nat)
    (hb : List Byte) : Option EntryReference :=
  let href := EntryHeader.ofBytes hb
  if href.keylen = 8 ∧ 0 < href.datalen ∧ href.datalen < S then
    let entry_len := href.len_with_header
    let nblks : Nat := nblksOf B blk_tail entry_len
    if idx + nblks ≤ list.length then
      some ⟨offset, entry_len, href.keylen, href.datalen, (list.drop idx).take nblks⟩
    else
      none
  else
    none

/-- get_ref from thelog.rs, instrumented with a flag recording whether
the block-spanning transfer was invoked to assemble the header.  The
in-block offset is the address reduced modulo the block size (the
source masks with BLOCK_OFF_MASK); when the header fits in the tail of
the first block it is read in place from that block, otherwise it is
assembled by the block-spanning transfer.  An assertion failure or
out-of-range block access yields none. -/
def get_refI (B S : Nat) (list : List (List Byte)) (idx va : Nat) :
    Option EntryReference × Bool :=
  let offset := va % B
  let blk_tail := B - offset
  if entryHeaderSize ≤ blk_tail then
    match list.get? idx with
    | none => (none, false)
    | some blk =>
      (get_ref_rest B S list idx offset blk_tail
        ((blk.drop offset).take entryHeaderSize), false)
  else
    (get_ref_rest B S list idx offset blk_tail
      (copy_out (list.drop idx) offset entryHeaderSize), true)

/-- get_ref from thelog.rs (the instrumented decoder, flag dropped). -/
def get_ref (B S : Nat) (list : List (List Byte)) (idx va : Nat) :
    Option EntryReference :=
  (get_refI B S list idx va).1

/-- Log::get_entry from thelog.rs: resolve the address to the owning
block list and first-block index through the external manager
(block_of, an input here), decode a reference, and copy the value out
into a fresh buffer. -/
def Log.get_entry (B S : Nat) (blockOf : Nat → List (List Byte) × Nat)
    (va : Nat) : Option (List Byte) :=
  let bl := blockOf va
  match get_ref B S bl.1 bl.2 va with
  | none => none
  | some er => some er.get_data

/-- Inversion for the shared validation/span step of the decoder: a
successfully produced reference carries the decoded header fields, the
validated bounds, and a block sub-slice of the computed span, which
fits inside the block list. -/
theorem get_ref_rest_inv (B S : Nat) (list : List (List Byte))
    (idx offset blk_tail : Nat) (hb : List Byte) (er : EntryReference)
    (h : get_ref_rest B S list idx offset blk_tail hb = some er) :
    er.offset = offset
    ∧ er.keylen = (EntryHeader.ofBytes hb).keylen
    ∧ er.datalen = (EntryHeader.ofBytes hb).datalen
    ∧ er.len = (EntryHeader.ofBytes hb).len_with_header
    ∧ er.keylen = 8 ∧ 0 < er.datalen ∧ er.datalen < S
    ∧ er.blocks = (list.drop idx).take (nblksOf B blk_tail er.len)
    ∧ idx + nblksOf B blk_tail er.len ≤ list.length := by
  simp only [get_ref_rest] at h
  split at h
  next hval =>
    split at h
    next hbound =>
      simp only [Option.some.injEq] at h
      subst h
      exact ⟨rfl, rfl, rfl, rfl, hval.1, hval.2.1, hval.2.2, rfl, hbound⟩
    next hbound => exact absurd h (by simp)
  next hval => exact absurd h (by simp)

/-- Inversion for get_ref: a successful decode went through the shared
validation step with the in-block offset and first-block tail computed
from the virtual address. -/
theorem get_ref_inv (B S : Nat) (list : List (List Byte)) (idx va : Nat)
    (er : EntryReference) (h : get_ref B S list idx va = some er) :
    ∃ hb, get_ref_rest B S list idx (va % B) (B - va % B) hb = some er := by
  simp only [get_ref, get_refI] at h
  split at h
  · split at h
    · simp at h
    · exact ⟨_, h⟩
  · exact ⟨_, h⟩

/-- C10: EntryHeader::new stores the descriptor's key length reduced
modulo 2^32 (the usize-to-u32 cast); the guarding assertion that the
key length is at most usize::MAX is vacuously true for every usize
key length and rejects nothing; and for a key length of at least 2^32
the stored field differs from the true length. -/
theorem entryheader_new_truncates_keylen (d : ObjDesc)
    (h64 : d.keylen < 2 ^ 64) :
    (EntryHeader.new d).keylen = d.keylen % 2 ^ 32
    ∧ EntryHeader.new_keylen_check d
    ∧ (2 ^ 32 ≤ d.keylen → (EntryHeader.new d).keylen ≠ d.keylen) := by
  refine ⟨rfl, ?_, ?_⟩
  · unfold EntryHeader.new_keylen_check usizeMax
    omega
  · intro hge
    have hmod : d.keylen % 2 ^ 32 < 2 ^ 32 := Nat.mod_lt _ (by norm_num)
    simp only [EntryHeader.new]
    omega

theorem entryheader_new_truncates_keylen_witness :
    (⟨List.replicate (2 ^ 32) 0, [1], false⟩ : ObjDesc).keylen < 2 ^ 64
    ∧ ((EntryHeader.new ⟨List.replicate (2 ^ 32) 0, [1], false⟩).keylen
          = (⟨List.replicate (2 ^ 32) 0, [1], false⟩ : ObjDesc).keylen % 2 ^ 32
        ∧ EntryHeader.new_keylen_check ⟨List.replicate (2 ^ 32) 0, [1], false⟩
        ∧ (2 ^ 32 ≤ (⟨List.replicate (2 ^ 32) 0, [1], false⟩ : ObjDesc).keylen →
            (EntryHeader.new ⟨List.replicate (2 ^ 32) 0, [1], false⟩).keylen
              ≠ (⟨List.replicate (2 ^ 32) 0, [1], false⟩ : ObjDesc).keylen)) := by
  have h64 : (⟨List.replicate (2 ^ 32) 0, [1], false⟩ : ObjDesc).keylen < 2 ^ 64 := by
    simp only [ObjDesc.keylen, List.length_replicate]
    norm_num
  exact ⟨h64, entryheader_new_truncates_keylen _ h64⟩

/-- C7: every reference produced by get_ref has passed the decoded
field validation — the key length equals the fixed 8-byte key width,
and the value length is positive and strictly below the segment size;
a header violating these bounds cannot yield a reference. -/
theorem get_ref_validates_fields (B S : Nat) (list : List (List Byte))
    (idx va : Nat) (er : EntryReference)
    (h : get_ref B S list idx va = some er) :
    er.keylen = 8 ∧ 0 < er.datalen ∧ er.datalen < S := by
  obtain ⟨hb, hrest⟩ := get_ref_inv B S list idx va er h
  obtain ⟨-, -, -, -, hk, hd, hS, -, -⟩ :=
    get_ref_rest_inv B S list idx (va % B) (B - va % B) hb er hrest
  exact ⟨hk, hd, hS⟩

theorem get_ref_validates_fields_witness :
    get_ref 32 48 [[8, 0, 0, 0, 2, 0, 0, 0] ++ List.replicate 24 0] 0 0
        = some ⟨0, 18, 8, 2, [[8, 0, 0, 0, 2, 0, 0, 0] ++ List.replicate 24 0]⟩
    ∧ ((⟨0, 18, 8, 2, [[8, 0, 0, 0, 2, 0, 0, 0] ++ List.replicate 24 0]⟩ :
          EntryReference).keylen = 8
       ∧ 0 < (⟨0, 18, 8, 2, [[8, 0, 0, 0, 2, 0, 0, 0] ++ List.replicate 24 0]⟩ :
          EntryReference).datalen
       ∧ (⟨0, 18, 8, 2, [[8, 0, 0, 0, 2, 0, 0, 0] ++ List.replicate 24 0]⟩ :
          EntryReference).datalen < 48) :=
  ⟨by decide, get_ref_validates_fields 32 48
    [[8, 0, 0, 0, 2, 0, 0, 0] ++ List.replicate 24 0] 0 0
    ⟨0, 18, 8, 2, [[8, 0, 0, 0, 2, 0, 0, 0] ++ List.replicate 24 0]⟩ (by decide)⟩

/-- C9: get_data extracts, through the block-spanning transfer,
exactly the logical byte range of length datalen starting at
offset + framed length − datalen within the reference's block list
(the tail of the framed record), and the extracted buffer has exactly
datalen bytes when the blocks cover the record. -/
theorem get_data_extracts_value_tail (er : EntryReference)
    (hdl : er.datalen ≤ er.len)
    (hcov : er.offset + er.len ≤ er.blocks.flatten.length) :
    er.get_data
      = (er.blocks.flatten.drop (er.offset + er.len - er.datalen)).take er.datalen
    ∧ er.get_data.length = er.datalen := by
  constructor
  · unfold EntryReference.get_data
    exact copy_out_eq _ _ _
  · unfold EntryReference.get_data
    rw [copy_out_eq]
    simp only [List.length_take, List.length_drop]
    omega

theorem get_data_extracts_value_tail_witness :
    ((⟨0, 18, 8, 2, [[8, 0, 0, 0, 2, 0, 0, 0, 1, 2, 3, 4, 5, 6, 7, 8, 9, 10] ++
        List.replicate 14 0]⟩ : EntryReference).datalen
      ≤ (⟨0, 18, 8, 2, [[8, 0, 0, 0, 2, 0, 0, 0, 1, 2, 3, 4, 5, 6, 7, 8, 9, 10] ++
        List.replicate 14 0]⟩ : EntryReference).len)
    ∧ EntryReference.get_data ⟨0, 18, 8, 2,
        [[8, 0, 0, 0, 2, 0, 0, 0, 1, 2, 3, 4, 5, 6, 7, 8, 9, 10] ++
          List.replicate 14 0]⟩ = [9, 10] := by
  constructor
  · decide
  · have h := get_data_extracts_value_tail
      ⟨0, 18, 8, 2, [[8, 0, 0, 0, 2, 0, 0, 0, 1, 2, 3, 4, 5, 6, 7, 8, 9, 10] ++
        List.replicate 14 0]⟩ (by decide) (by decide)
    rw [h.1]
    decide

/-- C2 as stated is false at a concrete input: an object whose framed
length is not strictly below SEGMENT_SIZE minus the segment header
size makes LogHead::append halt with its size assertion (a fatal
assertion failure), not return the ObjectTooBig error. -/
theorem loghead_toobig_counterexample :
    ¬ ((⟨List.replicate 8 0, List.replicate 24 0, false⟩ : ObjDesc).len_with_header
        < 48 - 8)
    ∧ (LogHead.append 48 8 ⟨none⟩ none
        ⟨List.replicate 8 0, List.replicate 24 0, false⟩).1
        ≠ AppendResult.err ErrorCode.ObjectTooBig := by
  decide

/-- C2 amended: for every object whose framed length is not strictly
less than SEGMENT_SIZE minus the segment header size, LogHead::append
halts with a fatal assertion failure before touching any segment
state, regardless of the log's current state; the failure is a panic
of the assertion, not an ObjectTooBig error value. -/
theorem loghead_toobig_asserts (S HS : Nat) (hs : LogHead)
    (alloc : Option Segment) (buf : ObjDesc)
    (h : ¬ buf.len_with_header < S - HS) :
    LogHead.append S HS hs alloc buf = (.panicTooBig, hs) := by
  unfold LogHead.append LogHead.appendWith
  rw [if_neg h]

theorem loghead_toobig_asserts_witness :
    ¬ ((⟨List.replicate 8 1, List.replicate 24 1, false⟩ : ObjDesc).len_with_header
        < 48 - 8)
    ∧ LogHead.append 48 8 ⟨none⟩ none
        ⟨List.replicate 8 1, List.replicate 24 1, false⟩
        = (.panicTooBig, ⟨none⟩) :=
  ⟨by decide, loghead_toobig_asserts 48 8 ⟨none⟩ none _ (by decide)⟩

/-- C3 as stated is false at a concrete input: for a record whose
framed length minus the first-block tail is an exact multiple of the
block size, the decoder produces a reference spanning one block more
than 1 + ceil((framed length − tail) / BLOCK_SIZE). -/
theorem get_ref_span_counterexample :
    ((get_ref 16 48
        [[0, 0, 0, 0, 8, 0, 0, 0, 12, 0, 0, 0, 0, 0, 0, 0],
          List.replicate 16 0, List.replicate 16 0, List.replicate 16 0] 0 4).map
        fun er => er.blocks.length) = some 3
    ∧ some 3 ≠ some (1 + ((28 - (16 - 4 % 16)) + 16 - 1) / 16) := by
  decide

/-- C3 amended: a reference produced by get_ref spans exactly 1 block
when the framed length is at most the first-block tail, and exactly
1 + (floor((framed length − tail) / BLOCK_SIZE) + 1) blocks otherwise —
one more than the claimed ceiling count exactly when BLOCK_SIZE
divides framed length − tail. -/
theorem get_ref_span_blocks (B S : Nat) (list : List (List Byte))
    (idx va : Nat) (er : EntryReference)
    (h : get_ref B S list idx va = some er) :
    er.blocks.length =
      if er.len ≤ B - va % B then 1
      else 1 + ((er.len - (B - va % B)) / B + 1) := by
  obtain ⟨hb, hrest⟩ := get_ref_inv B S list idx va er h
  obtain ⟨-, -, -, -, -, -, -, hblocks, hbound⟩ :=
    get_ref_rest_inv B S list idx (va % B) (B - va % B) hb er hrest
  rw [hblocks]
  simp only [nblksOf] at hbound ⊢
  by_cases hc : B - va % B < er.len
  · rw [if_pos hc] at hbound ⊢
    rw [if_neg (by omega)]
    simp only [List.length_take, List.length_drop]
    omega
  · rw [if_neg hc] at hbound ⊢
    rw [if_pos (by omega)]
    simp only [List.length_take, List.length_drop]
    omega

theorem get_ref_span_blocks_witness :
    get_ref 16 48
        [[0, 0, 0, 0, 8, 0, 0, 0, 12, 0, 0, 0, 0, 0, 0, 0],
          List.replicate 16 0, List.replicate 16 0, List.replicate 16 0] 0 4
      = some ⟨4, 28, 8, 12,
          [[0, 0, 0, 0, 8, 0, 0, 0, 12, 0, 0, 0, 0, 0, 0, 0],
            List.replicate 16 0, List.replicate 16 0]⟩
    ∧ (⟨4, 28, 8, 12,
          [[0, 0, 0, 0, 8, 0, 0, 0, 12, 0, 0, 0, 0, 0, 0, 0],
            List.replicate 16 0, List.replicate 16 0]⟩ :
          EntryReference).blocks.length =
        if (28 : Nat) ≤ 16 - 4 % 16 then 1
        else 1 + ((28 - (16 - 4 % 16)) / 16 + 1) :=
  ⟨by decide, get_ref_span_blocks 16 48
    [[0, 0, 0, 0, 8, 0, 0, 0, 12, 0, 0, 0, 0, 0, 0, 0],
      List.replicate 16 0, List.replicate 16 0, List.replicate 16 0] 0 4
    ⟨4, 28, 8, 12,
      [[0, 0, 0, 0, 8, 0, 0, 0, 12, 0, 0, 0, 0, 0, 0, 0],
        List.replicate 16 0, List.replicate 16 0]⟩ (by decide)⟩

/-- C4: the decoder invokes the block-spanning transfer to assemble
the record header exactly when the header's fixed byte width does not
fit within the bytes remaining in the first block from the record's
in-block offset; and when it fits, the in-place read returns the very
bytes the transfer would have assembled, so no copy is needed. -/
theorem get_ref_header_copy_iff (B S : Nat) (list : List (List Byte))
    (idx va : Nat) (blk : List Byte)
    (hblk : list.get? idx = some blk) (hlen : blk.length = B) :
    ((get_refI B S list idx va).2 = true ↔ B - va % B < entryHeaderSize)
    ∧ (entryHeaderSize ≤ B - va % B →
        (blk.drop (va % B)).take entryHeaderSize
          = copy_out (list.drop idx) (va % B) entryHeaderSize) := by
  constructor
  · simp only [get_refI]
    split
    next hfit =>
      split
      · simp only [Bool.false_eq_true, false_iff]
        omega
      · simp only [Bool.false_eq_true, false_iff]
        omega
    next hfit =>
      simp only [true_iff]
      omega
  · intro hfit
    have hidx : idx < list.length := by
      by_contra hge
      rw [List.get?_eq_none.mpr (by omega)] at hblk
      cases hblk
    have hdrop : list.drop idx = blk :: list.drop (idx + 1) := by
      rw [List.drop_eq_getElem_cons hidx]
      have : list[idx] = blk := by
        have := List.get?_eq_getElem? list idx
        rw [hblk] at this
        exact (List.getElem?_eq_some.mp this.symm).2
      rw [this]
    have hoff : va % B + entryHeaderSize ≤ blk.length := by
      simp only [entryHeaderSize] at hfit ⊢
      omega
    rw [copy_out_eq, hdrop, List.flatten_cons, List.drop_append_eq_append_drop,
      List.take_append_eq_append_take]
    have h1 : va % B - blk.length = 0 := by omega
    have h2 : (blk.drop (va % B)).length = blk.length - va % B := by
      simp
    have h3 : entryHeaderSize - (blk.drop (va % B)).length = 0 := by
      omega
    rw [h1, h3]
    simp

theorem get_ref_header_copy_iff_witness :
    ([List.replicate 16 0, List.replicate 16 0] : List (List Byte)).get? 0
        = some (List.replicate 16 0)
    ∧ (List.replicate 16 0 : List Byte).length = 16
    ∧ (((get_refI 16 48 [List.replicate 16 0, List.replicate 16 0] 0 4).2 = true
          ↔ 16 - 4 % 16 < entryHeaderSize)
        ∧ (entryHeaderSize ≤ 16 - 4 % 16 →
            ((List.replicate 16 0 : List Byte).drop (4 % 16)).take entryHeaderSize
              = copy_out ([List.replicate 16 0, List.replicate 16 0].drop 0)
                  (4 % 16) entryHeaderSize)) :=
  ⟨by decide, by decide,
    get_ref_header_copy_iff 16 48 [List.replicate 16 0, List.replicate 16 0] 0 4
      (List.replicate 16 0) (by decide) (by decide)⟩

/-- C5: when the head must roll and segment allocation fails, the
head's append returns the OutOfMemory error, and the log's append
returns that same failure to its caller with the liveness table
untouched and without attempting the append on any other head. -/
theorem append_oom_propagates (S HS : Nat) (lg : Log) (r : Nat)
    (segOf : Nat → Nat) (buf : ObjDesc) (hd : LogHead)
    (hhd : lg.heads.get? (r % NUM_LOG_HEADS) = some hd)
    (hlen : buf.len_with_header < S - HS)
    (hroll : hd.segment = none
      ∨ ∃ seg, hd.segment = some seg ∧ seg.can_hold S buf = false) :
    LogHead.append S HS hd none buf = (.err .OutOfMemory, ⟨none⟩)
    ∧ Log.append S HS lg r none segOf buf
        = (.err .OutOfMemory,
            ⟨lg.heads.set (r % NUM_LOG_HEADS) ⟨none⟩, lg.seginfo⟩) := by
  have h1 : LogHead.append S HS hd none buf = (.err .OutOfMemory, ⟨none⟩) := by
    unfold LogHead.append LogHead.appendWith
    rw [if_pos hlen]
    rcases hroll with hnone | ⟨seg, hseg, hch⟩
    · simp [hnone]
    · simp [hseg, hch]
  refine ⟨h1, ?_⟩
  simp only [Log.append, hhd, h1]

theorem append_oom_propagates_witness :
    ((⟨[⟨none⟩], fun _ => 0⟩ : Log).heads.get? (0 % NUM_LOG_HEADS) = some ⟨none⟩)
    ∧ ((⟨[0, 0, 0, 0], [1], false⟩ : ObjDesc).len_with_header < 48 - 8)
    ∧ (LogHead.append 48 8 ⟨none⟩ none ⟨[0, 0, 0, 0], [1], false⟩
          = (.err .OutOfMemory, ⟨none⟩)
        ∧ Log.append 48 8 ⟨[⟨none⟩], fun _ => 0⟩ 0 none (fun _ => 0)
            ⟨[0, 0, 0, 0], [1], false⟩
          = (.err .OutOfMemory,
              ⟨([⟨none⟩] : List LogHead).set (0 % NUM_LOG_HEADS) ⟨none⟩,
                (⟨[⟨none⟩], fun _ => 0⟩ : Log).seginfo⟩)) :=
  ⟨by decide, by decide,
    append_oom_propagates 48 8 ⟨[⟨none⟩], fun _ => 0⟩ 0 (fun _ => 0)
      ⟨[0, 0, 0, 0], [1], false⟩ ⟨none⟩ (by decide) (by decide) (Or.inl rfl)⟩

/-- C6: once the roll decision has settled on a segment (the current
one when it can hold the object, a freshly allocated one otherwise), a
failure of the segment's own append surfaces as a fatal fault, never
as an error value returned to the caller; and when the chosen segment
is open and its capacity query approved the object — the capacity
protocol — that fault branch is unreachable and the append returns
the record's address. -/
theorem loghead_segappend_failure_fatal (S HS : Nat) (hs : LogHead)
    (alloc : Option Segment) (buf : ObjDesc) (seg : Segment)
    (hlen : buf.len_with_header < S - HS)
    (hsel : LogHead.chosenSeg S hs alloc buf = some seg) :
    ((∃ c, Segment.append S seg buf = .error c) →
        LogHead.append S HS hs alloc buf = (.panicAppendFailed, ⟨some seg⟩))
    ∧ (seg.closed = false → seg.can_hold S buf = true →
        ∃ seg', LogHead.append S HS hs alloc buf = (.ok seg.pos, ⟨some seg'⟩)) := by
  have key : LogHead.append S HS hs alloc buf
      = (match Segment.append S seg buf with
         | .error _ => (.panicAppendFailed, ⟨some seg⟩)
         | .ok (va, seg') => (.ok va, ⟨some seg'⟩)) := by
    unfold LogHead.append LogHead.appendWith
    rw [if_pos hlen]
    unfold LogHead.chosenSeg at hsel
    obtain ⟨s⟩ := hs
    cases s with
    | none =>
      dsimp only at hsel ⊢
      rw [hsel]
      rfl
    | some s0 =>
      dsimp only at hsel ⊢
      by_cases hch : s0.can_hold S buf = true
      · rw [if_pos hch] at hsel
        simp only [Option.some.injEq] at hsel
        subst hsel
        rw [hch]
        rfl
      · rw [if_neg hch] at hsel
        have hch' : s0.can_hold S buf = false := by
          simpa using hch
        rw [hsel, hch']
        rfl
  constructor
  · rintro ⟨c, hc⟩
    rw [key, hc]
  · intro hcl hch
    have happ : Segment.append S seg buf
        = .ok (seg.pos,
            ⟨setBlocks seg.blocks seg.pos
                ((EntryHeader.new buf).toBytes ++ buf.keyBytes ++ buf.valueBytes),
              seg.pos +
                ((EntryHeader.new buf).toBytes ++ buf.keyBytes ++ buf.valueBytes).length,
              false⟩) := by
      simp only [Segment.append, hcl, hch, Bool.false_eq_true, if_false, if_true]
    refine ⟨⟨setBlocks seg.blocks seg.pos
        ((EntryHeader.new buf).toBytes ++ buf.keyBytes ++ buf.valueBytes),
      seg.pos +
        ((EntryHeader.new buf).toBytes ++ buf.keyBytes ++ buf.valueBytes).length,
      false⟩, ?_⟩
    rw [key, happ]

theorem loghead_segappend_failure_fatal_witness :
    ((⟨List.replicate 8 0, [1], false⟩ : ObjDesc).len_with_header < 48 - 8)
    ∧ LogHead.chosenSeg 48 ⟨some ⟨[List.replicate 16 0], 0, true⟩⟩ none
        ⟨List.replicate 8 0, [1], false⟩ = some ⟨[List.replicate 16 0], 0, true⟩
    ∧ LogHead.append 48 8 ⟨some ⟨[List.replicate 16 0], 0, true⟩⟩ none
        ⟨List.replicate 8 0, [1], false⟩
        = (.panicAppendFailed, ⟨some ⟨[List.replicate 16 0], 0, true⟩⟩) := by
  refine ⟨by decide, by decide, ?_⟩
  exact (loghead_segappend_failure_fatal 48 8 ⟨some ⟨[List.replicate 16 0], 0, true⟩⟩
      none ⟨List.replicate 8 0, [1], false⟩ ⟨[List.replicate 16 0], 0, true⟩
      (by decide) (by decide)).1 ⟨.SegmentClosed, by decide⟩

/-- Helper: a successful head append implies the static size assertion
was satisfied. -/
theorem loghead_append_ok_size (S HS : Nat) (hs : LogHead)
    (alloc : Option Segment) (buf : ObjDesc) (va : Nat) (hd' : LogHead)
    (h : LogHead.append S HS hs alloc buf = (.ok va, hd')) :
    buf.len_with_header < S - HS := by
  by_cases hlen : buf.len_with_header < S - HS
  · exact hlen
  · unfold LogHead.append LogHead.appendWith at h
    rw [if_neg hlen] at h
    simp at h

/-- C8: after a successful append the log increments the liveness
counter of exactly the segment the external mapping assigns to the
returned address, by exactly the record's framed length, leaving all
other counters unchanged; after a failed append no counter changes. -/
theorem append_updates_liveness (S HS : Nat) (lg : Log) (r : Nat)
    (alloc : Option Segment) (segOf : Nat → Nat) (buf : ObjDesc) (hd : LogHead)
    (hhd : lg.heads.get? (r % NUM_LOG_HEADS) = some hd) :
    (∀ va hd', LogHead.append S HS hd alloc buf = (.ok va, hd') →
        (Log.append S HS lg r alloc segOf buf).1 = .ok va
        ∧ ∀ i, (Log.append S HS lg r alloc segOf buf).2.seginfo i
            = if i = segOf va then lg.seginfo i + buf.len_with_header
              else lg.seginfo i)
    ∧ ((∀ va, (LogHead.append S HS hd alloc buf).1 ≠ .ok va) →
        (Log.append S HS lg r alloc segOf buf).2.seginfo = lg.seginfo) := by
  constructor
  · intro va hd' h
    have hlen : buf.len_with_header < S - HS :=
      loghead_append_ok_size S HS hd alloc buf va hd' h
    have hS : buf.len_with_header < S := by
      have := Nat.sub_le S HS
      omega
    have hlog : Log.append S HS lg r alloc segOf buf
        = (.ok va, ⟨lg.heads.set (r % NUM_LOG_HEADS) hd',
            fun i => if i = segOf va then lg.seginfo i + buf.len_with_header
                     else lg.seginfo i⟩) := by
      simp only [Log.append, hhd, h]
      rw [if_pos hS]
    rw [hlog]
    exact ⟨rfl, fun i => rfl⟩
  · intro hne
    rcases hres : LogHead.append S HS hd alloc buf with ⟨res, hd'⟩
    cases res with
    | ok va =>
      exact absurd (by rw [hres]) (hne va)
    | err c => simp only [Log.append, hhd, hres]
    | panicTooBig => simp only [Log.append, hhd, hres]
    | panicUnwrap => simp only [Log.append, hhd, hres]
    | panicAppendFailed => simp only [Log.append, hhd, hres]

theorem append_updates_liveness_witness :
    ((⟨[⟨none⟩], fun _ => 0⟩ : Log).heads.get? (0 % NUM_LOG_HEADS) = some ⟨none⟩)
    ∧ LogHead.append 48 8 ⟨none⟩
        (some ⟨[List.replicate 16 0, List.replicate 16 0, List.replicate 16 0],
          8, false⟩)
        ⟨List.replicate 8 0, [0], false⟩
        = (.ok 8,
            ⟨some ⟨[[0, 0, 0, 0, 0, 0, 0, 0, 8, 0, 0, 0, 1, 0, 0, 0],
                List.replicate 16 0, List.replicate 16 0], 25, false⟩⟩)
    ∧ ((Log.append 48 8 ⟨[⟨none⟩], fun _ => 0⟩ 0
          (some ⟨[List.replicate 16 0, List.replicate 16 0, List.replicate 16 0],
            8, false⟩)
          (fun _ => 5) ⟨List.replicate 8 0, [0], false⟩).1 = .ok 8
        ∧ ∀ i, (Log.append 48 8 ⟨[⟨none⟩], fun _ => 0⟩ 0
            (some ⟨[List.replicate 16 0, List.replicate 16 0, List.replicate 16 0],
              8, false⟩)
            (fun _ => 5) ⟨List.replicate 8 0, [0], false⟩).2.seginfo i
            = if i = (fun _ => 5 : Nat → Nat) 8
              then (⟨[⟨none⟩], fun _ => 0⟩ : Log).seginfo i
                    + (⟨List.replicate 8 0, [0], false⟩ : ObjDesc).len_with_header
              else (⟨[⟨none⟩], fun _ => 0⟩ : Log).seginfo i) := by
  refine ⟨by decide, by decide, ?_⟩
  exact (append_updates_liveness 48 8 ⟨[⟨none⟩], fun _ => 0⟩ 0
      (some ⟨[List.replicate 16 0, List.replicate 16 0, List.replicate 16 0],
        8, false⟩)
      (fun _ => 5) ⟨List.replicate 8 0, [0], false⟩ ⟨none⟩ (by decide)).1 8
    ⟨some ⟨[[0, 0, 0, 0, 0, 0, 0, 0, 8, 0, 0, 0, 1, 0, 0, 0],
        List.replicate 16 0, List.replicate 16 0], 25, false⟩⟩ (by decide)

/-- C1 (a bug in the decoder breaks the claimed round-trip): at a
concrete log state a record straddling a block boundary and ending
exactly at the last byte of its segment's block list is appended
successfully at address 25, but get_entry on that address fails: the
decoder computes one block too many for the span (floor division plus
one instead of a ceiling), its slice bound then exceeds the block
list — contradicting the source's own debug assertion — and the value
bytes are never returned. -/
theorem append_get_entry_roundtrip_fault :
    (Log.append 48 8
        ⟨[⟨some ⟨[List.replicate 16 0, List.replicate 16 0, List.replicate 16 0],
            25, false⟩⟩], fun _ => 0⟩ 0 none (fun _ => 0)
        ⟨[1, 2, 3, 4, 5, 6, 7, 8], [9, 10, 11, 12, 13, 14, 15], false⟩).1
      = .ok 25
    ∧ (Log.append 48 8
        ⟨[⟨some ⟨[List.replicate 16 0, List.replicate 16 0, List.replicate 16 0],
            25, false⟩⟩], fun _ => 0⟩ 0 none (fun _ => 0)
        ⟨[1, 2, 3, 4, 5, 6, 7, 8], [9, 10, 11, 12, 13, 14, 15], false⟩).2.heads
      = [⟨some ⟨setBlocks
            [List.replicate 16 0, List.replicate 16 0, List.replicate 16 0] 25
            ((EntryHeader.new
                ⟨[1, 2, 3, 4, 5, 6, 7, 8], [9, 10, 11, 12, 13, 14, 15], false⟩).toBytes
              ++ [1, 2, 3, 4, 5, 6, 7, 8] ++ [9, 10, 11, 12, 13, 14, 15]),
          48, false⟩⟩]
    ∧ Log.get_entry 16 48
        (fun _ => (setBlocks
            [List.replicate 16 0, List.replicate 16 0, List.replicate 16 0] 25
            ((EntryHeader.new
                ⟨[1, 2, 3, 4, 5, 6, 7, 8], [9, 10, 11, 12, 13, 14, 15], false⟩).toBytes
              ++ [1, 2, 3, 4, 5, 6, 7, 8] ++ [9, 10, 11, 12, 13, 14, 15]), 1)) 25
      = none
    ∧ (none : Option (List Byte)) ≠ some [9, 10, 11, 12, 13, 14, 15] := by
  decide

end Nibble
